import Mathlib

/-!
# GroupChat server: registry, message cache, dispatcher and worker pool

A shallow embedding of `GroupChat/server/server.cpp`, `GroupChat/server/thread_pool.h`
and `GroupChat/shared/protocol.h`, followed by the properties established about it.

Conventions of the embedding.

* `std::unordered_map<K, V>` is a function `K → Option V` (`none`: no entry for the key).
  `m[k]` on a missing key default-constructs the value, `m.find(k)` does not.
* `std::vector<int>` and `std::deque<CachedMessage>` are lists, front first.
* File descriptors are `Int`, group identifiers and packet fields are `Nat`.
* The steady clock is read in whole seconds, so `CACHE_TTL` is `60`.
* The transport is outside the program: the value returned by each call of `send(2)` and
  the two clocks are inputs (`Env`). Every call of `send(2)` and `close(2)` is logged.
* `stateMutex` is a plain `std::mutex`. A thread that constructs a `lock_guard` on it while
  it already owns it never gets past that line; the run then ends in `Run.deadlock`.
-/

namespace GroupChat

/-! ## shared/protocol.h -/

/-- Client joins a group. -/
def PKT_JOIN : Nat := 1

/-- Normal chat message. -/
def PKT_MSG : Nat := 2

/-- Client leaves. -/
def PKT_LEAVE : Nat := 3

/-- The binary packet `ChatPacket`: `uint8_t type`, `uint16_t groupID`,
`uint32_t timestamp`, `char payload[256]` (as a list of bytes). -/
structure ChatPacket where
  type : Nat
  groupID : Nat
  timestamp : Nat
  payload : List Nat
  deriving DecidableEq, Repr

/-! ## server.cpp: shared state -/

/-- A cached packet with its absolute expiry instant on the steady clock. -/
structure CachedMessage where
  packet : ChatPacket
  expiry : Nat
  deriving DecidableEq, Repr

/-- Capacity of one group's cache. -/
def MAX_CACHE_PER_GROUP : Nat := 50

/-- Lifetime of a cached message, in seconds. -/
def CACHE_TTL : Nat := 60

/-- The global maps of the server and its message counter. -/
structure ServerState where
  groupMembers : Nat → Option (List Int)
  groupCaches : Nat → Option (List CachedMessage)
  clientGroup : Int → Option Nat
  totalMessages : Nat

/-- The state at process start: three empty maps, counter zero. -/
def ServerState.empty : ServerState :=
  { groupMembers := fun _ => none
    groupCaches := fun _ => none
    clientGroup := fun _ => none
    totalMessages := 0 }

/-- Assignment `m[k] = v`. -/
def mapSet {κ ν : Type} [DecidableEq κ] (m : κ → Option ν) (k : κ) (v : ν) : κ → Option ν :=
  fun j => if j = k then some v else m j

/-- Removal `m.erase(k)`. -/
def mapErase {κ ν : Type} [DecidableEq κ] (m : κ → Option ν) (k : κ) : κ → Option ν :=
  fun j => if j = k then none else m j

/-- The value read by `m[k]`: the stored one, or an empty container for a missing key. -/
def mapAt {κ ν : Type} (m : κ → Option (List ν)) (k : κ) : List ν :=
  (m k).getD []

/-- The inputs of one task that the program does not control: the steady clock, the wall
clock, and the value returned by the `k`-th call of `send(2)` (counted from zero). -/
structure Env where
  now : Nat
  wall : Nat
  sendRet : Nat → Int

/-- The running task: the shared state, whether the task owns `stateMutex`, and the calls
of `send(2)` and `close(2)` made so far, oldest first. -/
structure Exec where
  st : ServerState
  held : Bool
  sent : List (Int × ChatPacket)
  closed : List Int

/-- A task starts without the mutex and with empty logs. -/
def Exec.start (s : ServerState) : Exec :=
  { st := s, held := false, sent := [], closed := [] }

/-- How a run ends: it returns, or it blocks for ever on `stateMutex`. -/
inductive Run where
  | done (e : Exec)
  | deadlock (e : Exec)

/-- The task state at the end of the run (at the blocking point for a deadlock). -/
def Run.exec : Run → Exec
  | .done e => e
  | .deadlock e => e

/-- Whether the run returned. -/
def Run.returned : Run → Bool
  | .done _ => true
  | .deadlock _ => false

/-- Sequencing: what follows a statement runs only when the statement returns. -/
def Run.bind (r : Run) (k : Exec → Run) : Run :=
  match r with
  | .done e => k e
  | .deadlock e => .deadlock e

/-- Construction of `std::lock_guard<std::mutex> lock(stateMutex)`. -/
def lockState (e : Exec) : Run :=
  if e.held then .deadlock e else .done { e with held := true }

/-- Destruction of the `lock_guard` at the end of its scope. -/
def unlockState (e : Exec) : Exec :=
  { e with held := false }

/-- A range-based `for` whose body may block. -/
def forEach {α : Type} (body : α → Exec → Run) : List α → Exec → Run
  | [], e => .done e
  | x :: rest, e => (body x e).bind (forEach body rest)

/-! ## server.cpp: helper functions -/

/-- The function `cleanup_client_nolock`: when `fd` has an entry in `clientGroup`, every
occurrence of `fd` is removed from that group's member vector (when the group has one)
and the entry is erased. -/
def cleanup_client_nolock (fd : Int) (s : ServerState) : ServerState :=
  match s.clientGroup fd with
  | none => s
  | some g =>
    let s1 : ServerState :=
      match s.groupMembers g with
      | none => s
      | some vec => { s with groupMembers := mapSet s.groupMembers g (vec.filter (fun x => x != fd)) }
    { s1 with clientGroup := mapErase s1.clientGroup fd }

/-- The function `cleanup_client`: takes `stateMutex`, cleans up, releases, closes `fd`. -/
def cleanup_client (fd : Int) (e : Exec) : Run :=
  (lockState e).bind fun e1 =>
    let e2 := unlockState { e1 with st := cleanup_client_nolock fd e1.st }
    .done { e2 with closed := e2.closed ++ [fd] }

/-- The function `send_packet_fd`: one call of `send(2)`; a result `n <= 0` runs
`cleanup_client`. -/
def send_packet_fd (env : Env) (fd : Int) (pkt : ChatPacket) (e : Exec) : Run :=
  let n := env.sendRet e.sent.length
  let e1 := { e with sent := e.sent ++ [(fd, pkt)] }
  if n ≤ 0 then cleanup_client fd e1 else .done e1

/-- The function `broadcast_to_group`: under `stateMutex`, sends `pkt` to every entry of
the group's member vector except `excludeFd`. -/
def broadcast_to_group (env : Env) (groupID : Nat) (pkt : ChatPacket) (excludeFd : Int)
    (e : Exec) : Run :=
  (lockState e).bind fun e1 =>
    match e1.st.groupMembers groupID with
    | none => .done (unlockState e1)
    | some vec =>
      (forEach (fun fd e2 => if fd = excludeFd then .done e2 else send_packet_fd env fd pkt e2)
        vec e1).bind fun e3 => .done (unlockState e3)

/-- The loop `while (dq.size() > MAX_CACHE_PER_GROUP) dq.pop_front()`. -/
def popWhileOver {α : Type} : List α → List α
  | [] => []
  | x :: rest =>
    if MAX_CACHE_PER_GROUP < (x :: rest).length then popWhileOver rest else x :: rest

/-- The function `cache_message`: appends the packet with expiry `now + CACHE_TTL` to the
group's deque, then pops from the front while the deque is over capacity. -/
def cache_message (env : Env) (groupID : Nat) (pkt : ChatPacket) (e : Exec) : Run :=
  let now := env.now
  (lockState e).bind fun e1 =>
    let dq := mapAt e1.st.groupCaches groupID
    let dq1 := dq ++ [{ packet := pkt, expiry := now + CACHE_TTL }]
    let dq2 := popWhileOver dq1
    .done (unlockState { e1 with st := { e1.st with groupCaches := mapSet e1.st.groupCaches groupID dq2 } })

/-- The loop `while (!dq.empty() && dq.front().expiry < now) dq.pop_front()`. -/
def evictExpired (now : Nat) : List CachedMessage → List CachedMessage
  | [] => []
  | cm :: rest => if cm.expiry < now then evictExpired now rest else cm :: rest

/-- The function `send_cached_messages`: under `stateMutex`, evicts the expired front of
the group's deque, then sends what is left to `fd`, front first. -/
def send_cached_messages (env : Env) (fd : Int) (groupID : Nat) (e : Exec) : Run :=
  let now := env.now
  (lockState e).bind fun e1 =>
    let dq := evictExpired now (mapAt e1.st.groupCaches groupID)
    let e2 := { e1 with st := { e1.st with groupCaches := mapSet e1.st.groupCaches groupID dq } }
    (forEach (fun cm e3 => send_packet_fd env fd cm.packet e3) dq e2).bind fun e4 =>
      .done (unlockState e4)

/-- The assignment `pkt.timestamp = static_cast<uint32_t>(std::time(nullptr))`. -/
def stamp (env : Env) (pkt : ChatPacket) : ChatPacket :=
  { pkt with timestamp := env.wall % 2 ^ 32 }

/-- The function `handle_packet`, run by a worker on one received packet. -/
def handle_packet (env : Env) (client_fd : Int) (pkt0 : ChatPacket) (s : ServerState) : Run :=
  let pkt := stamp env pkt0
  let e := Exec.start s
  if pkt.type = PKT_JOIN then
    let groupID := pkt.groupID
    (lockState e).bind fun e1 =>
      let members := mapAt e1.st.groupMembers groupID ++ [client_fd]
      let s1 := { e1.st with groupMembers := mapSet e1.st.groupMembers groupID members }
      let s2 := { s1 with clientGroup := mapSet s1.clientGroup client_fd groupID }
      send_cached_messages env client_fd groupID (unlockState { e1 with st := s2 })
  else if pkt.type = PKT_MSG then
    (lockState e).bind fun e1 =>
      match e1.st.clientGroup client_fd with
      | none => .done (unlockState e1)
      | some groupID =>
        (cache_message env groupID pkt (unlockState e1)).bind fun e2 =>
          (broadcast_to_group env groupID pkt client_fd e2).bind fun e3 =>
            .done { e3 with st := { e3.st with totalMessages := (e3.st.totalMessages + 1) % 2 ^ 64 } }
  else if pkt.type = PKT_LEAVE then
    (lockState e).bind fun e1 =>
      let e2 := unlockState { e1 with st := cleanup_client_nolock client_fd e1.st }
      .done { e2 with closed := e2.closed ++ [client_fd] }
  else
    .done e

/-- The deque of group `g` after `cache_message` has recorded `pkt` at time `now`. -/
def recorded (now : Nat) (pkt : ChatPacket) (dq : List CachedMessage) : List CachedMessage :=
  popWhileOver (dq ++ [{ packet := pkt, expiry := now + CACHE_TTL }])

/-! ## Concrete inputs used by the examples -/

/-- An environment in which every `send(2)` transmits the whole packet. -/
def envOk (now wall : Nat) : Env :=
  { now := now, wall := wall, sendRet := fun _ => 264 }

/-- An environment in which the first `send(2)` of the task fails and the later ones succeed. -/
def envFirstFails (now wall : Nat) : Env :=
  { now := now, wall := wall, sendRet := fun k => if k = 0 then -1 else 264 }

/-- A JOIN packet for group `g`. -/
def joinPkt (g : Nat) : ChatPacket :=
  { type := PKT_JOIN, groupID := g, timestamp := 0, payload := [] }

/-- A MSG packet carrying `text`; the client leaves `groupID` at zero. -/
def msgPkt (text : List Nat) : ChatPacket :=
  { type := PKT_MSG, groupID := 0, timestamp := 0, payload := text }

/-- A LEAVE packet. -/
def leavePkt : ChatPacket :=
  { type := PKT_LEAVE, groupID := 0, timestamp := 0, payload := [] }

/-- The shared state after a task. -/
def after (env : Env) (c : Int) (pkt : ChatPacket) (s : ServerState) : ServerState :=
  (handle_packet env c pkt s).exec.st

/-- Connection 4 joined group 9 and then left. -/
def sLeft : ServerState :=
  after (envOk 1 1) 4 leavePkt (after (envOk 0 0) 4 (joinPkt 9) ServerState.empty)

/-- Connections 9, 10 and 11 joined group 1 in that order, connection 20 joined group 2. -/
def sRoom : ServerState :=
  after (envOk 3 3) 20 (joinPkt 2) (after (envOk 2 2) 11 (joinPkt 1)
    (after (envOk 1 1) 10 (joinPkt 1) (after (envOk 0 0) 9 (joinPkt 1) ServerState.empty)))

/-- The operations on the registry: a JOIN or LEAVE packet handled by `handle_packet`, or
a direct `cleanup_client_nolock`. -/
inductive RegOp where
  | join (env : Env) (c : Int) (g : Nat)
  | leave (env : Env) (c : Int)
  | cleanup (c : Int)

/-- The shared state after one registry operation. -/
def RegOp.apply : RegOp → ServerState → ServerState
  | .join env c g, s => after env c (joinPkt g) s
  | .leave env c, s => after env c leavePkt s
  | .cleanup c, s => cleanup_client_nolock c s

/-- The shared state after a sequence of registry operations, first operation first. -/
def runOps (ops : List RegOp) (s : ServerState) : ServerState :=
  ops.foldl (fun t op => op.apply t) s

/-- One direction of the registry invariant: a connection is listed in the group its
`clientGroup` entry names. -/
def Registered (s : ServerState) : Prop :=
  ∀ c g, s.clientGroup c = some g → c ∈ mapAt s.groupMembers g


/-- One call `cache_message(groupID, pkt)` with the clock of its task. -/
structure RecordCall where
  env : Env
  groupID : Nat
  pkt : ChatPacket

/-- The deque entry that a call of `cache_message` appends. -/
def RecordCall.entry (r : RecordCall) : CachedMessage :=
  { packet := r.pkt, expiry := r.env.now + CACHE_TTL }

/-- The shared state after a sequence of `cache_message` calls, first call first. -/
def recordAll (calls : List RecordCall) (s : ServerState) : ServerState :=
  calls.foldl (fun t r => (cache_message r.env r.groupID r.pkt (Exec.start t)).exec.st) s

/-- The entries appended to group `g` by a sequence of `cache_message` calls, in call order. -/
def entriesOf (g : Nat) (calls : List RecordCall) : List CachedMessage :=
  (calls.filter (fun r => r.groupID = g)).map RecordCall.entry

/-- Fifty-two `cache_message` calls on group 3, with payloads 0 to 51 at times 0 to 51. -/
def burst : List RecordCall :=
  (List.range 52).map (fun k => { env := envOk k k, groupID := 3, pkt := msgPkt [k] })

/-- An operation on the caches: a call of `cache_message` or of `send_cached_messages`. -/
inductive CacheOp where
  | record (env : Env) (g : Nat) (pkt : ChatPacket)
  | read (env : Env) (fd : Int) (g : Nat)

/-- The steady-clock instant at which a cache operation runs. -/
def CacheOp.time : CacheOp → Nat
  | .record env _ _ => env.now
  | .read env _ _ => env.now

/-- The shared state after one cache operation. -/
def CacheOp.apply : CacheOp → ServerState → ServerState
  | .record env g pkt, s => (cache_message env g pkt (Exec.start s)).exec.st
  | .read env fd g, s => (send_cached_messages env fd g (Exec.start s)).exec.st

/-- The shared state after a sequence of cache operations, first operation first. -/
def runCache (ops : List CacheOp) (s : ServerState) : ServerState :=
  ops.foldl (fun t op => op.apply t) s

/-- The invariant of the caches along a history `ops` with a non-decreasing clock: every
deque is in expiry order, and each of its entries was appended by a `cache_message` call
of the history, with expiry `CACHE_TTL` after that call. -/
def CacheInv (ops : List CacheOp) (s : ServerState) : Prop :=
  ∀ g, (mapAt s.groupCaches g).Pairwise (fun a b => a.expiry ≤ b.expiry) ∧
    ∀ e ∈ mapAt s.groupCaches g,
      ∃ env, CacheOp.record env g e.packet ∈ ops ∧ e.expiry = env.now + CACHE_TTL

/-- A history on group 7: packet `[97]` recorded at time 100 and read at time 100, packet
`[98]` recorded at time 130, then a read at time 161. -/
def ttlHistory : List CacheOp :=
  [.record (envOk 100 100) 7 (msgPkt [97]), .read (envOk 100 100) 30 7,
   .record (envOk 130 130) 7 (msgPkt [98])]

/-- One task of the worker pool: `handle_packet(fd, pkt)` with the inputs of its run. -/
structure Task where
  env : Env
  fd : Int
  pkt : ChatPacket

/-- The shared state after a sequence of tasks run one after the other. -/
def handleAll (tasks : List Task) (s : ServerState) : ServerState :=
  tasks.foldl (fun t k => after k.env k.fd k.pkt t) s

/-- The `cache_message` call that the MSG task `k` of a member of group `G` makes. -/
def Task.record (G : Nat) (k : Task) : RecordCall :=
  { env := k.env, groupID := G, pkt := stamp k.env k.pkt }

/-- The scenario of the late joiner: connection 10 is alone in group 7. -/
def sSeven : ServerState :=
  after (envOk 0 1000) 10 (joinPkt 7) ServerState.empty

/-- The scenario of the late joiner: connection 10 sends "a", "b", "c". -/
def abc : List Task :=
  [{ env := envOk 1 1001, fd := 10, pkt := msgPkt [97] },
   { env := envOk 2 1002, fd := 10, pkt := msgPkt [98] },
   { env := envOk 3 1003, fd := 10, pkt := msgPkt [99] }]

/-- Connections 10 and 11 are both in group 7. -/
def sPair : ServerState :=
  after (envOk 0 1000) 11 (joinPkt 7) sSeven

/-- Two `cache_message` calls on group 7 at time 100, with payloads `[97]` and `[98]`. -/
def twoAtOnce : List RecordCall :=
  [{ env := envOk 100 100, groupID := 7, pkt := msgPkt [97] },
   { env := envOk 100 100, groupID := 7, pkt := msgPkt [98] }]

/-! ## thread_pool.h -/

/-- The data of `ThreadPool` guarded by `queueMutex`: the FIFO queue `tasks` (front first)
and the flag `stop`. -/
structure ThreadPool (τ : Type) where
  tasks : List τ
  stop : Bool

/-- The member function `enqueue`: pushes the task at the back of the queue. -/
def ThreadPool.enqueue {τ : Type} (pool : ThreadPool τ) (task : τ) : ThreadPool τ :=
  { pool with tasks := pool.tasks ++ [task] }

/-- The locked block of the destructor: `stop = true`. -/
def ThreadPool.destroy {τ : Type} (pool : ThreadPool τ) : ThreadPool τ :=
  { pool with stop := true }

/-- What a worker does in one pass through its locked block. -/
inductive WorkerStep (τ : Type) where
  | blocked
  | exited
  | took (task : τ)
  deriving DecidableEq, Repr

/-- One pass of a worker through the locked block of its loop: it stays in
`condition.wait` while `stop || !tasks.empty()` is false, returns when
`stop && tasks.empty()`, and otherwise moves `tasks.front()` out and pops it. -/
def ThreadPool.workerStep {τ : Type} (pool : ThreadPool τ) : WorkerStep τ × ThreadPool τ :=
  if !(pool.stop || !pool.tasks.isEmpty) then (.blocked, pool)
  else if pool.stop && pool.tasks.isEmpty then (.exited, pool)
  else
    match pool.tasks with
    | [] => (.blocked, pool)
    | task :: rest => (.took task, { pool with tasks := rest })

/-- A pool with its workers: the guarded data, the number of workers that have not
returned, and the tasks taken from the queue so far, in the order they were taken. -/
structure PoolRun (τ : Type) where
  pool : ThreadPool τ
  alive : Nat
  started : List τ

/-- The constructor: `stop(false)`, an empty queue, and `threadCount` workers, four when
`threadCount` is zero. -/
def PoolRun.create (τ : Type) (threadCount : Nat) : PoolRun τ :=
  { pool := { tasks := [], stop := false }
    alive := if threadCount = 0 then 4 else threadCount
    started := [] }

/-- The events of a pool: a call of `enqueue`, the destructor setting `stop`, or one pass
of some live worker through its locked block. -/
inductive PoolEvent (τ : Type) where
  | enqueue (task : τ)
  | destroy
  | worker

/-- The effect of one event. -/
def PoolRun.step {τ : Type} (r : PoolRun τ) : PoolEvent τ → PoolRun τ
  | .enqueue task => { r with pool := r.pool.enqueue task }
  | .destroy => { r with pool := r.pool.destroy }
  | .worker =>
    if r.alive = 0 then r
    else
      match r.pool.workerStep with
      | (.blocked, p) => { r with pool := p }
      | (.exited, p) => { r with pool := p, alive := r.alive - 1 }
      | (.took task, p) => { r with pool := p, started := r.started ++ [task] }

/-- The effect of a sequence of events, first event first. -/
def PoolRun.run {τ : Type} (r : PoolRun τ) (events : List (PoolEvent τ)) : PoolRun τ :=
  events.foldl PoolRun.step r

/-- The tasks passed to `enqueue` in a sequence of events, in call order. -/
def enqueued {τ : Type} : List (PoolEvent τ) → List τ
  | [] => []
  | .enqueue task :: rest => task :: enqueued rest
  | _ :: rest => enqueued rest

/-! ## Basic facts about runs -/

theorem stamp_type (env : Env) (pkt : ChatPacket) : (stamp env pkt).type = pkt.type := rfl

theorem stamp_groupID (env : Env) (pkt : ChatPacket) : (stamp env pkt).groupID = pkt.groupID := rfl

/-- A send that succeeds only appends to the log. -/
theorem send_packet_fd_ok (env : Env) (hok : ∀ k, 0 < env.sendRet k) (fd : Int)
    (pkt : ChatPacket) (e : Exec) :
    send_packet_fd env fd pkt e = .done { e with sent := e.sent ++ [(fd, pkt)] } := by
  have h := hok e.sent.length
  simp only [send_packet_fd]
  rw [if_neg (by omega)]

/-- The fan-out loop when every send succeeds. -/
theorem forEach_broadcast_ok (env : Env) (hok : ∀ k, 0 < env.sendRet k) (pkt : ChatPacket)
    (x : Int) (vec : List Int) (e : Exec) :
    forEach (fun fd e2 => if fd = x then Run.done e2 else send_packet_fd env fd pkt e2) vec e
      = .done { e with sent := e.sent ++ (vec.filter (fun fd => fd != x)).map (fun fd => (fd, pkt)) } := by
  induction vec generalizing e with
  | nil => simp [forEach]
  | cons a rest ih =>
    by_cases hax : a = x
    · simp [forEach, hax, Run.bind, ih]
    · simp only [forEach]
      rw [if_neg hax, send_packet_fd_ok env hok]
      simp only [Run.bind]
      rw [ih]
      simp [List.filter_cons, hax]

/-- The backlog loop when every send succeeds. -/
theorem forEach_cached_ok (env : Env) (hok : ∀ k, 0 < env.sendRet k) (fd : Int)
    (dq : List CachedMessage) (e : Exec) :
    forEach (fun cm e3 => send_packet_fd env fd cm.packet e3) dq e
      = .done { e with sent := e.sent ++ dq.map (fun cm => (fd, cm.packet)) } := by
  induction dq generalizing e with
  | nil => simp [forEach]
  | cons a rest ih =>
    simp only [forEach]
    rw [send_packet_fd_ok env hok]
    simp only [Run.bind]
    rw [ih]
    simp
/-- The function `cache_message` called without the mutex returns, and changes only the
deque of its group. -/
theorem cache_message_free (env : Env) (g : Nat) (pkt : ChatPacket) (e : Exec)
    (hfree : e.held = false) :
    cache_message env g pkt e = .done { e with
      st := { e.st with
        groupCaches := mapSet e.st.groupCaches g (recorded env.now pkt (mapAt e.st.groupCaches g)) } } := by
  cases e with
  | mk st held sent closed =>
    simp only at hfree
    subst hfree
    simp [cache_message, lockState, Run.bind, unlockState, recorded]

/-- A MSG from a joined connection, when every send succeeds: the packet is stamped,
recorded in the group's cache, sent to the members other than the sender, and counted. -/
theorem handle_msg_ok (env : Env) (c : Int) (pkt : ChatPacket) (s : ServerState) (G : Nat)
    (hty : pkt.type = PKT_MSG) (hj : s.clientGroup c = some G) (hok : ∀ k, 0 < env.sendRet k) :
    handle_packet env c pkt s = .done
      { st := { s with
          groupCaches := mapSet s.groupCaches G (recorded env.now (stamp env pkt) (mapAt s.groupCaches G))
          totalMessages := (s.totalMessages + 1) % 2 ^ 64 }
        held := false
        sent := ((mapAt s.groupMembers G).filter (fun fd => fd != c)).map (fun fd => (fd, stamp env pkt))
        closed := [] } := by
  have h1 : ¬ (stamp env pkt).type = PKT_JOIN := by rw [stamp_type, hty]; decide
  have h2 : (stamp env pkt).type = PKT_MSG := by rw [stamp_type, hty]
  simp only [handle_packet, if_neg h1, if_pos h2, lockState, Exec.start, Run.bind, unlockState,
    Bool.false_eq_true, if_false, hj]
  rw [cache_message_free _ _ _ _ rfl]
  simp only [Run.bind, broadcast_to_group, lockState, Bool.false_eq_true, if_false]
  cases hm : s.groupMembers G with
  | none => simp [unlockState, mapAt, hm]
  | some vec =>
    simp only
    rw [forEach_broadcast_ok env hok]
    simp [Run.bind, unlockState, mapAt, hm]

/-- A JOIN when every send succeeds: the connection is appended to the group's member
vector, `clientGroup` is pointed at the group, the expired front of the cache is evicted
and the rest is sent to the joiner. -/
theorem handle_join_ok (env : Env) (c : Int) (pkt : ChatPacket) (s : ServerState)
    (hty : pkt.type = PKT_JOIN) (hok : ∀ k, 0 < env.sendRet k) :
    handle_packet env c pkt s = .done
      { st := { s with
          groupMembers := mapSet s.groupMembers pkt.groupID (mapAt s.groupMembers pkt.groupID ++ [c])
          clientGroup := mapSet s.clientGroup c pkt.groupID
          groupCaches := mapSet s.groupCaches pkt.groupID
            (evictExpired env.now (mapAt s.groupCaches pkt.groupID)) }
        held := false
        sent := (evictExpired env.now (mapAt s.groupCaches pkt.groupID)).map (fun cm => (c, cm.packet))
        closed := [] } := by
  have h1 : (stamp env pkt).type = PKT_JOIN := by rw [stamp_type, hty]
  simp only [handle_packet, if_pos h1, lockState, Exec.start, Run.bind, unlockState,
    Bool.false_eq_true, if_false, send_cached_messages, stamp_groupID]
  rw [forEach_cached_ok env hok]
  simp [Run.bind]

/-- A send made while the task owns `stateMutex`: a failure blocks in `cleanup_client`
before anything is cleaned up. -/
theorem send_packet_fd_locked (env : Env) (fd : Int) (pkt : ChatPacket) (e : Exec)
    (hheld : e.held = true) :
    send_packet_fd env fd pkt e =
      if env.sendRet e.sent.length ≤ 0 then .deadlock { e with sent := e.sent ++ [(fd, pkt)] }
      else .done { e with sent := e.sent ++ [(fd, pkt)] } := by
  simp [send_packet_fd, cleanup_client, lockState, hheld, Run.bind]

/-- The backlog loop under the mutex, whatever the transport does: the sends are those of
the first `n` cached packets for some `n`, and nothing else changes. -/
theorem forEach_cached_locked (env : Env) (fd : Int) (dq : List CachedMessage) (e : Exec)
    (hheld : e.held = true) :
    ∃ n, n ≤ dq.length ∧
      (forEach (fun cm e3 => send_packet_fd env fd cm.packet e3) dq e).exec
        = { e with sent := e.sent ++ (dq.take n).map (fun cm => (fd, cm.packet)) } := by
  induction dq generalizing e with
  | nil => exact ⟨0, le_refl _, by simp [forEach, Run.exec]⟩
  | cons a rest ih =>
    simp only [forEach]
    rw [send_packet_fd_locked env fd a.packet e hheld]
    by_cases hfail : env.sendRet e.sent.length ≤ 0
    · refine ⟨1, by simp, ?_⟩
      simp [if_pos hfail, Run.bind, Run.exec]
    · rw [if_neg hfail]
      simp only [Run.bind]
      obtain ⟨n, hn, heq⟩ := ih { e with sent := e.sent ++ [(fd, a.packet)] } hheld
      refine ⟨n + 1, by simpa using hn, ?_⟩
      rw [heq]
      simp

/-- The function `send_cached_messages` called without the mutex, whatever the transport
does: the group's deque becomes its unexpired tail, and the sends are those of the first
`n` packets of that tail for some `n`. -/
theorem send_cached_messages_free (env : Env) (fd : Int) (g : Nat) (e : Exec)
    (hfree : e.held = false) :
    ∃ n, n ≤ (evictExpired env.now (mapAt e.st.groupCaches g)).length ∧
      (send_cached_messages env fd g e).exec.st = { e.st with
        groupCaches := mapSet e.st.groupCaches g (evictExpired env.now (mapAt e.st.groupCaches g)) } ∧
      (send_cached_messages env fd g e).exec.sent = e.sent ++
        ((evictExpired env.now (mapAt e.st.groupCaches g)).take n).map (fun cm => (fd, cm.packet)) := by
  simp only [send_cached_messages, lockState, hfree, Bool.false_eq_true, if_false, Run.bind]
  obtain ⟨n, hn, heq⟩ := forEach_cached_locked env fd
    (evictExpired env.now (mapAt e.st.groupCaches g))
    { st := { e.st with
        groupCaches := mapSet e.st.groupCaches g (evictExpired env.now (mapAt e.st.groupCaches g)) }
      held := true, sent := e.sent, closed := e.closed } rfl
  refine ⟨n, hn, ?_⟩
  generalize hr : forEach (fun cm e3 => send_packet_fd env fd cm.packet e3)
    (evictExpired env.now (mapAt e.st.groupCaches g)) _ = r at heq
  cases r with
  | done e4 =>
    simp only [Run.exec] at heq
    subst heq
    simp [Run.exec, unlockState]
  | deadlock e4 =>
    simp only [Run.exec] at heq
    subst heq
    simp [Run.exec]

/-- The shared state after a JOIN, whatever the transport does. -/
theorem handle_join_state (env : Env) (c : Int) (pkt : ChatPacket) (s : ServerState)
    (hty : pkt.type = PKT_JOIN) :
    (handle_packet env c pkt s).exec.st = { s with
      groupMembers := mapSet s.groupMembers pkt.groupID (mapAt s.groupMembers pkt.groupID ++ [c])
      clientGroup := mapSet s.clientGroup c pkt.groupID
      groupCaches := mapSet s.groupCaches pkt.groupID
        (evictExpired env.now (mapAt s.groupCaches pkt.groupID)) } := by
  have h1 : (stamp env pkt).type = PKT_JOIN := by rw [stamp_type, hty]
  simp only [handle_packet, if_pos h1, lockState, Exec.start, Run.bind, unlockState,
    Bool.false_eq_true, if_false, stamp_groupID]
  obtain ⟨n, -, hst, -⟩ := send_cached_messages_free env c pkt.groupID
    { st := { s with
        groupMembers := mapSet s.groupMembers pkt.groupID (mapAt s.groupMembers pkt.groupID ++ [c])
        clientGroup := mapSet s.clientGroup c pkt.groupID }
      held := false, sent := [], closed := [] } rfl
  rw [hst]

/-- A LEAVE returns after cleaning up and closing the connection. -/
theorem handle_leave (env : Env) (c : Int) (pkt : ChatPacket) (s : ServerState)
    (hty : pkt.type = PKT_LEAVE) :
    handle_packet env c pkt s = .done
      { st := cleanup_client_nolock c s, held := false, sent := [], closed := [c] } := by
  have h1 : ¬ (stamp env pkt).type = PKT_JOIN := by rw [stamp_type, hty]; decide
  have h2 : ¬ (stamp env pkt).type = PKT_MSG := by rw [stamp_type, hty]; decide
  have h3 : (stamp env pkt).type = PKT_LEAVE := by rw [stamp_type, hty]
  simp [handle_packet, if_neg h1, if_neg h2, if_pos h3, lockState, Exec.start, Run.bind,
    unlockState]

/-- Every send succeeds under `envOk`. -/
theorem envOk_sends (now wall : Nat) : ∀ k, 0 < (envOk now wall).sendRet k :=
  fun _ => show (0 : Int) < 264 by decide

/-- Cleanup of a connection without a `clientGroup` entry does nothing. -/
theorem cleanup_of_unjoined (c : Int) (s : ServerState) (hc : s.clientGroup c = none) :
    cleanup_client_nolock c s = s := by
  simp [cleanup_client_nolock, hc]

/-- Cleanup of a connection whose group has no member vector only erases the entry. -/
theorem cleanup_of_joined_absent (c : Int) (s : ServerState) (g : Nat)
    (hc : s.clientGroup c = some g) (hm : s.groupMembers g = none) :
    cleanup_client_nolock c s = { s with clientGroup := mapErase s.clientGroup c } := by
  simp [cleanup_client_nolock, hc, hm]

/-- Cleanup of a connection whose group has a member vector. -/
theorem cleanup_of_joined (c : Int) (s : ServerState) (g : Nat) (vec : List Int)
    (hc : s.clientGroup c = some g) (hm : s.groupMembers g = some vec) :
    cleanup_client_nolock c s = { s with
      groupMembers := mapSet s.groupMembers g (vec.filter (fun x => x != c))
      clientGroup := mapErase s.clientGroup c } := by
  simp [cleanup_client_nolock, hc, hm]

/-- Cleanup leaves no entry for the connection in `clientGroup`. -/
theorem cleanup_clientGroup_self (c : Int) (s : ServerState) :
    (cleanup_client_nolock c s).clientGroup c = none := by
  cases hc : s.clientGroup c with
  | none => rw [cleanup_of_unjoined c s hc]; exact hc
  | some g =>
    cases hm : s.groupMembers g with
    | none => rw [cleanup_of_joined_absent c s g hc hm]; simp [mapErase]
    | some vec => rw [cleanup_of_joined c s g vec hc hm]; simp [mapErase]

/-- Cleanup for `c` leaves every other connection alone: its `clientGroup` entry and its
number of occurrences in every member vector are unchanged. -/
theorem cleanup_other (c : Int) (s : ServerState) (d : Int) (hd : d ≠ c) :
    (cleanup_client_nolock c s).clientGroup d = s.clientGroup d ∧
    ∀ g : Nat, (mapAt (cleanup_client_nolock c s).groupMembers g).count d
      = (mapAt s.groupMembers g).count d := by
  cases hc : s.clientGroup c with
  | none => rw [cleanup_of_unjoined c s hc]; simp
  | some g =>
    cases hm : s.groupMembers g with
    | none => rw [cleanup_of_joined_absent c s g hc hm]; simp [mapErase, hd]
    | some vec =>
      rw [cleanup_of_joined c s g vec hc hm]
      refine ⟨by simp [mapErase, hd], fun k => ?_⟩
      by_cases hk : k = g
      · subst hk
        simp only [mapAt, mapSet, if_pos, hm, Option.getD_some]
        rw [List.count_filter]
        simpa using hd
      · simp [mapAt, mapSet, hk]

/-! ## The two eviction loops -/

/-- The capacity loop keeps the last `MAX_CACHE_PER_GROUP` elements. -/
theorem popWhileOver_eq_drop {α : Type} (l : List α) :
    popWhileOver l = l.drop (l.length - MAX_CACHE_PER_GROUP) := by
  induction l with
  | nil => rfl
  | cons x rest ih =>
    simp only [popWhileOver]
    by_cases h : MAX_CACHE_PER_GROUP < (x :: rest).length
    · rw [if_pos h, ih]
      simp only [List.length_cons] at h ⊢
      have e : rest.length + 1 - MAX_CACHE_PER_GROUP = (rest.length - MAX_CACHE_PER_GROUP) + 1 := by
        omega
      rw [e, List.drop_succ_cons]
    · rw [if_neg h]
      have e : (x :: rest).length - MAX_CACHE_PER_GROUP = 0 := by omega
      rw [e, List.drop_zero]

theorem popWhileOver_length {α : Type} (l : List α) :
    (popWhileOver l).length = min l.length MAX_CACHE_PER_GROUP := by
  rw [popWhileOver_eq_drop, List.length_drop]
  omega

theorem popWhileOver_suffix {α : Type} (l : List α) : popWhileOver l <:+ l := by
  rw [popWhileOver_eq_drop]
  exact List.drop_suffix _ _

/-- The expiry loop removes a front segment. -/
theorem evictExpired_suffix (now : Nat) (l : List CachedMessage) : evictExpired now l <:+ l := by
  induction l with
  | nil => exact List.suffix_refl _
  | cons a rest ih =>
    simp only [evictExpired]
    by_cases h : a.expiry < now
    · rw [if_pos h]
      exact ih.trans (List.suffix_cons a rest)
    · rw [if_neg h]

theorem evictExpired_length_le (now : Nat) (l : List CachedMessage) :
    (evictExpired now l).length ≤ l.length :=
  (evictExpired_suffix now l).length_le

/-- Nothing is evicted from a deque whose entries are all unexpired. -/
theorem evictExpired_of_fresh (now : Nat) (l : List CachedMessage)
    (h : ∀ e ∈ l, ¬ e.expiry < now) : evictExpired now l = l := by
  cases l with
  | nil => rfl
  | cons a rest => simp [evictExpired, h a (List.mem_cons_self a rest)]

/-- A suffix is determined by its length. -/
theorem suffix_eq_drop {α : Type} (a l : List α) (h : a <:+ l) :
    a = l.drop (l.length - a.length) := by
  obtain ⟨t, rfl⟩ := h
  simp

/-- The state after one `cache_message` task. -/
theorem cache_message_state (env : Env) (g : Nat) (pkt : ChatPacket) (s : ServerState) :
    (cache_message env g pkt (Exec.start s)).exec.st = { s with
      groupCaches := mapSet s.groupCaches g (recorded env.now pkt (mapAt s.groupCaches g)) } := by
  rw [cache_message_free env g pkt (Exec.start s) rfl]
  rfl

/-- After a sequence of `cache_message` calls, the deque of a group that started within
capacity is a suffix of its old content followed by the new entries, cut to capacity. -/
theorem recordAll_cache (calls : List RecordCall) (g : Nat) (s : ServerState)
    (hcap : (mapAt s.groupCaches g).length ≤ MAX_CACHE_PER_GROUP) :
    mapAt (recordAll calls s).groupCaches g <:+ mapAt s.groupCaches g ++ entriesOf g calls ∧
    (mapAt (recordAll calls s).groupCaches g).length
      = min ((mapAt s.groupCaches g).length + (entriesOf g calls).length) MAX_CACHE_PER_GROUP := by
  induction calls generalizing s with
  | nil =>
    simp only [recordAll, List.foldl_nil, entriesOf, List.filter_nil, List.map_nil,
      List.append_nil, List.length_nil, Nat.add_zero]
    exact ⟨List.suffix_refl _, by omega⟩
  | cons r rest ih =>
    have hstep : recordAll (r :: rest) s
        = recordAll rest (cache_message r.env r.groupID r.pkt (Exec.start s)).exec.st := rfl
    rw [hstep]
    by_cases hg : r.groupID = g
    · have hnew : mapAt (cache_message r.env r.groupID r.pkt (Exec.start s)).exec.st.groupCaches g
          = popWhileOver (mapAt s.groupCaches g ++ [r.entry]) := by
        rw [cache_message_state]
        subst hg
        simp [mapAt, mapSet, recorded, RecordCall.entry]
      have hlen := popWhileOver_length (mapAt s.groupCaches g ++ [r.entry])
      have hsuf := popWhileOver_suffix (mapAt s.groupCaches g ++ [r.entry])
      obtain ⟨ih1, ih2⟩ := ih _ (by rw [hnew, hlen]; omega)
      rw [hnew] at ih1 ih2
      have hent : entriesOf g (r :: rest) = r.entry :: entriesOf g rest := by
        simp [entriesOf, hg]
      rw [hent]
      refine ⟨?_, ?_⟩
      · refine ih1.trans ?_
        obtain ⟨t, ht⟩ := hsuf
        refine ⟨t, ?_⟩
        rw [← List.append_assoc, ht]
        simp
      · rw [ih2, hlen]
        simp only [List.length_append, List.length_cons, List.length_nil]
        omega
    · have hnew : mapAt (cache_message r.env r.groupID r.pkt (Exec.start s)).exec.st.groupCaches g
          = mapAt s.groupCaches g := by
        rw [cache_message_state]
        have hg2 : ¬ g = r.groupID := fun h => hg h.symm
        simp [mapAt, mapSet, hg2]
      obtain ⟨ih1, ih2⟩ := ih _ (by rw [hnew]; exact hcap)
      rw [hnew] at ih1 ih2
      have hent : entriesOf g (r :: rest) = entriesOf g rest := by
        simp [entriesOf, hg]
      rw [hent]
      exact ⟨ih1, ih2⟩

/-! ## Expiry order of the caches -/

/-- After the expiry loop, a deque in expiry order holds no expired entry. -/
theorem evictExpired_fresh (now : Nat) (l : List CachedMessage)
    (hs : l.Pairwise (fun a b => a.expiry ≤ b.expiry)) :
    ∀ e ∈ evictExpired now l, now ≤ e.expiry := by
  induction l with
  | nil => intro e he; simp [evictExpired] at he
  | cons a rest ih =>
    rw [List.pairwise_cons] at hs
    simp only [evictExpired]
    by_cases h : a.expiry < now
    · rw [if_pos h]
      exact ih hs.2
    · rw [if_neg h]
      intro e he
      rcases List.mem_cons.mp he with rfl | hmem
      · omega
      · have := hs.1 e hmem
        omega

/-- The expiry loop keeps every unexpired entry. -/
theorem mem_evictExpired (now : Nat) (l : List CachedMessage) (e : CachedMessage)
    (he : e ∈ l) (hfresh : now ≤ e.expiry) : e ∈ evictExpired now l := by
  induction l with
  | nil => simp at he
  | cons a rest ih =>
    simp only [evictExpired]
    by_cases h : a.expiry < now
    · rw [if_pos h]
      rcases List.mem_cons.mp he with rfl | hmem
      · omega
      · exact ih hmem
    · rw [if_neg h]
      exact he

/-- The deque of each group after one `send_cached_messages` task. -/
theorem read_cache (env : Env) (fd : Int) (g k : Nat) (s : ServerState) :
    mapAt (send_cached_messages env fd g (Exec.start s)).exec.st.groupCaches k
      = if k = g then evictExpired env.now (mapAt s.groupCaches g) else mapAt s.groupCaches k := by
  obtain ⟨n, -, hst, -⟩ := send_cached_messages_free env fd g (Exec.start s) rfl
  rw [hst]
  by_cases hk : k = g
  · subst hk; simp [mapAt, mapSet, Exec.start]
  · simp [mapAt, mapSet, Exec.start, hk]

/-- The deque of each group after one `cache_message` task. -/
theorem record_cache (env : Env) (g k : Nat) (pkt : ChatPacket) (s : ServerState) :
    mapAt (cache_message env g pkt (Exec.start s)).exec.st.groupCaches k
      = if k = g then popWhileOver (mapAt s.groupCaches g ++ [{ packet := pkt, expiry := env.now + CACHE_TTL }])
        else mapAt s.groupCaches k := by
  rw [cache_message_state]
  by_cases hk : k = g
  · subst hk; simp [mapAt, mapSet, recorded]
  · simp [mapAt, mapSet, hk]

theorem runCache_snoc (ops : List CacheOp) (op : CacheOp) (s : ServerState) :
    runCache (ops ++ [op]) s = op.apply (runCache ops s) := by
  simp [runCache, List.foldl_append]

/-- The cache invariant holds along every history with a non-decreasing clock that starts
with empty caches. -/
theorem cacheInv_runCache (ops : List CacheOp) (s0 : ServerState)
    (hs0 : ∀ g, mapAt s0.groupCaches g = [])
    (hmono : (ops.map CacheOp.time).Pairwise (fun a b => a ≤ b)) :
    CacheInv ops (runCache ops s0) := by
  induction ops using List.reverseRecOn with
  | nil =>
    intro g
    simp [runCache, hs0 g]
  | append_singleton ops op ih =>
    rw [List.map_append, List.pairwise_append] at hmono
    obtain ⟨hm1, -, hm3⟩ := hmono
    have hinv := ih hm1
    rw [runCache_snoc]
    generalize runCache ops s0 = s at hinv
    have hbefore : ∀ o ∈ ops, o.time ≤ op.time := by
      intro o ho
      exact hm3 o.time (List.mem_map_of_mem _ ho) op.time (by simp)
    intro k
    obtain ⟨hsorted, hsrc⟩ := hinv k
    have hsrc2 : ∀ e ∈ mapAt s.groupCaches k,
        ∃ env, CacheOp.record env k e.packet ∈ ops ++ [op] ∧ e.expiry = env.now + CACHE_TTL := by
      intro e he
      obtain ⟨env, hmem, hexp⟩ := hsrc e he
      exact ⟨env, List.mem_append_left _ hmem, hexp⟩
    cases op with
    | read env fd g =>
      simp only [CacheOp.apply, read_cache]
      by_cases hk : k = g
      · subst hk
        rw [if_pos rfl]
        have hsuf := evictExpired_suffix env.now (mapAt s.groupCaches k)
        exact ⟨hsorted.sublist hsuf.sublist, fun e he => hsrc2 e (hsuf.subset he)⟩
      · rw [if_neg hk]
        exact ⟨hsorted, hsrc2⟩
    | record env g pkt =>
      simp only [CacheOp.apply, record_cache]
      by_cases hk : k = g
      · subst hk
        rw [if_pos rfl]
        have hsuf := popWhileOver_suffix
          (mapAt s.groupCaches k ++ [({ packet := pkt, expiry := env.now + CACHE_TTL } : CachedMessage)])
        have hall : (mapAt s.groupCaches k
            ++ [({ packet := pkt, expiry := env.now + CACHE_TTL } : CachedMessage)]).Pairwise
            (fun a b => a.expiry ≤ b.expiry) := by
          rw [List.pairwise_append]
          refine ⟨hsorted, List.pairwise_singleton _ _, ?_⟩
          intro a ha b hb
          rw [List.mem_singleton] at hb
          subst hb
          obtain ⟨env2, hmem, hexp⟩ := hsrc a ha
          have := hbefore _ hmem
          simp only [CacheOp.time] at this
          simp only [hexp]
          omega
        refine ⟨hall.sublist hsuf.sublist, ?_⟩
        intro e he
        rcases List.mem_append.mp (hsuf.subset he) with hold | hnew
        · exact hsrc2 e hold
        · rw [List.mem_singleton] at hnew
          subst hnew
          exact ⟨env, by simp, rfl⟩
      · rw [if_neg hk]
        exact ⟨hsorted, hsrc2⟩

/-- The function `send_cached_messages` called without the mutex when every send
succeeds: the whole unexpired tail is sent, front first. -/
theorem send_cached_messages_ok (env : Env) (fd : Int) (g : Nat) (s : ServerState)
    (hok : ∀ k, 0 < env.sendRet k) :
    (send_cached_messages env fd g (Exec.start s)).returned = true ∧
    (send_cached_messages env fd g (Exec.start s)).exec.sent
      = (evictExpired env.now (mapAt s.groupCaches g)).map (fun cm => (fd, cm.packet)) := by
  simp only [send_cached_messages, lockState, Exec.start, Bool.false_eq_true, if_false, Run.bind]
  rw [forEach_cached_ok env hok]
  simp [Run.bind, Run.returned, Run.exec, unlockState]

/-- A recorded entry is still in the deque after fewer than fifty later records. -/
theorem recordAll_keeps_recent (r : RecordCall) (later : List RecordCall) (s : ServerState)
    (hlater : (entriesOf r.groupID later).length < MAX_CACHE_PER_GROUP) :
    r.entry ∈ mapAt (recordAll (r :: later) s).groupCaches r.groupID := by
  have hstep : recordAll (r :: later) s
      = recordAll later (cache_message r.env r.groupID r.pkt (Exec.start s)).exec.st := rfl
  rw [hstep]
  generalize hs1 : (cache_message r.env r.groupID r.pkt (Exec.start s)).exec.st = s1
  have hc1 : mapAt s1.groupCaches r.groupID
      = popWhileOver (mapAt s.groupCaches r.groupID ++ [r.entry]) := by
    rw [← hs1, record_cache, if_pos rfl]
    rfl
  have hlen1 := popWhileOver_length (mapAt s.groupCaches r.groupID ++ [r.entry])
  have hsuf1 := popWhileOver_suffix (mapAt s.groupCaches r.groupID ++ [r.entry])
  rw [← hc1] at hlen1 hsuf1
  simp only [List.length_append, List.length_cons, List.length_nil] at hlen1
  -- the deque after the first record ends with the new entry
  obtain ⟨front, hfront⟩ : ∃ front, mapAt s1.groupCaches r.groupID = front ++ [r.entry] := by
    have hdrop := suffix_eq_drop _ _ hsuf1
    rw [hdrop, List.drop_append_of_le_length (by
      simp only [List.length_append, List.length_cons, List.length_nil]; omega)]
    exact ⟨_, rfl⟩
  obtain ⟨hsuf, hlen⟩ := recordAll_cache later r.groupID s1 (by
    simp only [MAX_CACHE_PER_GROUP] at hlen1 ⊢; omega)
  have hdrop := suffix_eq_drop _ _ hsuf
  rw [hdrop, hfront, List.append_assoc]
  rw [hfront] at hlen
  simp only [List.length_append, List.length_cons, List.length_nil] at hlen ⊢
  rw [List.drop_append_of_le_length (by
    simp only [MAX_CACHE_PER_GROUP] at hlater hlen ⊢; omega)]
  simp

/-! ## Sequences of MSG tasks -/

/-- MSG tasks of members of `G`, with working sends, leave the registry alone and change
the caches as the corresponding `cache_message` calls do. -/
theorem handleAll_msgs (G : Nat) (tasks : List Task) (s t : ServerState)
    (hcache : s.groupCaches = t.groupCaches)
    (hmsgs : ∀ k ∈ tasks,
      k.pkt.type = PKT_MSG ∧ s.clientGroup k.fd = some G ∧ ∀ i, 0 < k.env.sendRet i) :
    (handleAll tasks s).groupMembers = s.groupMembers ∧
    (handleAll tasks s).clientGroup = s.clientGroup ∧
    (handleAll tasks s).groupCaches = (recordAll (tasks.map (Task.record G)) t).groupCaches := by
  induction tasks generalizing s t with
  | nil => exact ⟨rfl, rfl, hcache⟩
  | cons k rest ih =>
    obtain ⟨hty, hj, hok⟩ := hmsgs k (List.mem_cons_self k rest)
    have hs : handleAll (k :: rest) s = handleAll rest (after k.env k.fd k.pkt s) := rfl
    have ht : recordAll ((k :: rest).map (Task.record G)) t
        = recordAll (rest.map (Task.record G))
            (cache_message k.env G (stamp k.env k.pkt) (Exec.start t)).exec.st := rfl
    rw [hs, ht]
    have hafter := handle_msg_ok k.env k.fd k.pkt s G hty hj hok
    have hrec := cache_message_state k.env G (stamp k.env k.pkt) t
    have h1 : (after k.env k.fd k.pkt s).groupMembers = s.groupMembers := by
      simp only [after, hafter, Run.exec]
    have h2 : (after k.env k.fd k.pkt s).clientGroup = s.clientGroup := by
      simp only [after, hafter, Run.exec]
    have h3 : (after k.env k.fd k.pkt s).groupCaches
        = (cache_message k.env G (stamp k.env k.pkt) (Exec.start t)).exec.st.groupCaches := by
      rw [hrec]
      simp only [after, hafter, Run.exec, hcache]
    obtain ⟨i1, i2, i3⟩ := ih (after k.env k.fd k.pkt s) _ h3 (fun k2 hk2 => by
      obtain ⟨a, b, c⟩ := hmsgs k2 (List.mem_cons_of_mem k hk2)
      exact ⟨a, by rw [h2]; exact b, c⟩)
    exact ⟨i1.trans h1, i2.trans h2, i3⟩

theorem entriesOf_records (G : Nat) (tasks : List Task) :
    entriesOf G (tasks.map (Task.record G))
      = tasks.map (fun k => { packet := stamp k.env k.pkt, expiry := k.env.now + CACHE_TTL }) := by
  induction tasks with
  | nil => rfl
  | cons k rest ih =>
    simp only [entriesOf, List.map_cons, List.filter_cons, Task.record, if_true,
      decide_True, RecordCall.entry] at ih ⊢
    rw [ih]

/-- The cache of `G`, empty before, after at most fifty MSG tasks of members of `G`. -/
theorem handleAll_msgs_cache (G : Nat) (tasks : List Task) (s : ServerState)
    (hempty : mapAt s.groupCaches G = [])
    (hN : tasks.length ≤ MAX_CACHE_PER_GROUP)
    (hmsgs : ∀ k ∈ tasks,
      k.pkt.type = PKT_MSG ∧ s.clientGroup k.fd = some G ∧ ∀ i, 0 < k.env.sendRet i) :
    mapAt (handleAll tasks s).groupCaches G
      = tasks.map (fun k => { packet := stamp k.env k.pkt, expiry := k.env.now + CACHE_TTL }) := by
  obtain ⟨-, -, h3⟩ := handleAll_msgs G tasks s s rfl hmsgs
  obtain ⟨hsuf, hlen⟩ := recordAll_cache (tasks.map (Task.record G)) G s
    (by rw [hempty]; exact Nat.zero_le _)
  rw [← h3, hempty, entriesOf_records] at hsuf hlen
  simp only [List.nil_append, List.length_nil, Nat.zero_add, List.length_map] at hsuf hlen
  have h := suffix_eq_drop _ _ hsuf
  rw [hlen, List.length_map, Nat.min_eq_left hN, Nat.sub_self, List.drop_zero] at h
  exact h

/-- Among the fan-out of a packet over `l ++ [Y]` without `X`, exactly one send goes to a
`Y` that `l` does not list. -/
theorem fanout_to_newcomer (l : List Int) (X Y : Int) (p : ChatPacket) (hY : Y ∉ l)
    (hXY : X ≠ Y) :
    ((((l ++ [Y]).filter (fun fd => fd != X)).map (fun fd => (fd, p))).filter
        (fun q => decide (q.1 = Y))) = [(Y, p)] := by
  have hl : ∀ (m : List Int), Y ∉ m →
      (((m.filter (fun fd => fd != X)).map (fun fd => (fd, p))).filter
        (fun q => decide (q.1 = Y))) = [] := by
    intro m hm
    rw [List.filter_eq_nil_iff]
    intro q hq
    obtain ⟨a, ha, rfl⟩ := List.mem_map.mp hq
    have : a ≠ Y := fun h => hm (h ▸ (List.mem_filter.mp ha).1)
    simpa using this
  have hne : (Y != X) = true := by simpa using fun h : Y = X => hXY h.symm
  rw [List.filter_append, List.map_append, List.filter_append, hl l hY]
  simp [List.filter_cons, hne]

/-! ## The worker pool -/

/-- A worker pass on a non-empty queue takes the front task, whatever `stop` is. -/
theorem workerStep_cons {τ : Type} (pool : ThreadPool τ) (task : τ) (rest : List τ)
    (h : pool.tasks = task :: rest) :
    pool.workerStep = (.took task, { pool with tasks := rest }) := by
  cases hs : pool.stop <;> simp [ThreadPool.workerStep, h, hs]

/-- A worker pass on an empty queue: the worker returns when `stop` is set and keeps
waiting otherwise. -/
theorem workerStep_nil {τ : Type} (pool : ThreadPool τ) (h : pool.tasks = []) :
    pool.workerStep = (if pool.stop then .exited else .blocked, pool) := by
  cases hs : pool.stop <;> simp [ThreadPool.workerStep, h, hs]

/-- One event keeps every task: what was taken followed by what is queued grows exactly
by the enqueued task. -/
theorem step_conserves {τ : Type} (r : PoolRun τ) (ev : PoolEvent τ) :
    (r.step ev).started ++ (r.step ev).pool.tasks
      = r.started ++ r.pool.tasks ++ enqueued [ev] := by
  cases ev with
  | enqueue task => simp [PoolRun.step, ThreadPool.enqueue, enqueued]
  | destroy => simp [PoolRun.step, ThreadPool.destroy, enqueued]
  | worker =>
    simp only [PoolRun.step, enqueued, List.append_nil]
    by_cases h0 : r.alive = 0
    · rw [if_pos h0]
    · rw [if_neg h0]
      cases ht : r.pool.tasks with
      | nil =>
        rw [workerStep_nil r.pool ht]
        cases r.pool.stop <;> simp [ht]
      | cons task rest =>
        rw [workerStep_cons r.pool task rest ht]
        simp

theorem enqueued_append {τ : Type} (a b : List (PoolEvent τ)) :
    enqueued (a ++ b) = enqueued a ++ enqueued b := by
  induction a with
  | nil => rfl
  | cons ev rest ih => cases ev <;> simp [enqueued, ih]

/-- A run keeps every task, in the order of the `enqueue` calls. -/
theorem run_conserves {τ : Type} (events : List (PoolEvent τ)) (r : PoolRun τ) :
    (r.run events).started ++ (r.run events).pool.tasks
      = r.started ++ r.pool.tasks ++ enqueued events := by
  induction events generalizing r with
  | nil => simp [PoolRun.run, enqueued]
  | cons ev rest ih =>
    have hrun : r.run (ev :: rest) = (r.step ev).run rest := rfl
    rw [hrun, ih, step_conserves]
    have : enqueued (ev :: rest) = enqueued [ev] ++ enqueued rest :=
      enqueued_append [ev] rest
    rw [this]
    simp

/-- No worker returns while `stop` is clear. -/
theorem run_alive_before_stop {τ : Type} (events : List (PoolEvent τ)) (r : PoolRun τ)
    (hev : ∀ ev ∈ events, ev ≠ PoolEvent.destroy) (hstop : r.pool.stop = false) :
    (r.run events).alive = r.alive ∧ (r.run events).pool.stop = false := by
  induction events generalizing r with
  | nil => exact ⟨rfl, hstop⟩
  | cons ev rest ih =>
    have hrun : r.run (ev :: rest) = (r.step ev).run rest := rfl
    have hrest : ∀ e ∈ rest, e ≠ PoolEvent.destroy :=
      fun e he => hev e (List.mem_cons_of_mem ev he)
    have hstep : (r.step ev).alive = r.alive ∧ (r.step ev).pool.stop = false := by
      cases ev with
      | enqueue task => exact ⟨rfl, hstop⟩
      | destroy => exact absurd rfl (hev _ (List.mem_cons_self _ _))
      | worker =>
        simp only [PoolRun.step]
        by_cases h0 : r.alive = 0
        · rw [if_pos h0]; exact ⟨rfl, hstop⟩
        · rw [if_neg h0]
          cases ht : r.pool.tasks with
          | nil =>
            rw [workerStep_nil r.pool ht, hstop]
            exact ⟨rfl, hstop⟩
          | cons task rest2 =>
            rw [workerStep_cons r.pool task rest2 ht]
            exact ⟨rfl, hstop⟩
    obtain ⟨i1, i2⟩ := ih (r.step ev) hrest hstep.2
    rw [hrun]
    exact ⟨i1.trans hstep.1, i2⟩

/-- Once `stop` is set and only workers run, a worker has returned only if the queue is
empty. -/
theorem run_workers_after_stop {τ : Type} (n : Nat) (events : List (PoolEvent τ))
    (r : PoolRun τ) (hev : ∀ ev ∈ events, ev = PoolEvent.worker)
    (hstop : r.pool.stop = true) (hinv : r.alive < n → r.pool.tasks = []) (hle : r.alive ≤ n) :
    (r.run events).alive < n → (r.run events).pool.tasks = [] := by
  induction events generalizing r with
  | nil => exact hinv
  | cons ev rest ih =>
    have hrun : r.run (ev :: rest) = (r.step ev).run rest := rfl
    rw [hrun]
    have hw := hev ev (List.mem_cons_self _ _)
    subst hw
    have hrest : ∀ e ∈ rest, e = PoolEvent.worker :=
      fun e he => hev e (List.mem_cons_of_mem _ he)
    have hstep : (r.step PoolEvent.worker).pool.stop = true ∧
        ((r.step PoolEvent.worker).alive < n → (r.step PoolEvent.worker).pool.tasks = []) ∧
        (r.step PoolEvent.worker).alive ≤ n := by
      simp only [PoolRun.step]
      by_cases h0 : r.alive = 0
      · rw [if_pos h0]; exact ⟨hstop, hinv, hle⟩
      · rw [if_neg h0]
        cases ht : r.pool.tasks with
        | nil =>
          rw [workerStep_nil r.pool ht, hstop]
          exact ⟨hstop, fun _ => ht, by simp only [if_true]; omega⟩
        | cons task rest2 =>
          rw [workerStep_cons r.pool task rest2 ht]
          refine ⟨hstop, fun hlt => ?_, hle⟩
          have := hinv hlt
          rw [ht] at this
          exact absurd this (List.cons_ne_nil _ _)
    exact ih (r.step PoolEvent.worker) hrest hstep.1 hstep.2.1 hstep.2.2

/-- With `stop` set and a live worker, as many worker passes as there are queued tasks
take them all, in queue order, and no worker returns meanwhile. -/
theorem run_drains {τ : Type} (r : PoolRun τ) (halive : 0 < r.alive) :
    (r.run (List.replicate r.pool.tasks.length PoolEvent.worker)).started
      = r.started ++ r.pool.tasks ∧
    (r.run (List.replicate r.pool.tasks.length PoolEvent.worker)).pool.tasks = [] ∧
    (r.run (List.replicate r.pool.tasks.length PoolEvent.worker)).alive = r.alive := by
  generalize hq : r.pool.tasks = q
  induction q generalizing r with
  | nil => simp [PoolRun.run, hq]
  | cons task rest ih =>
    have hrun : r.run (List.replicate (task :: rest).length PoolEvent.worker)
        = (r.step PoolEvent.worker).run (List.replicate rest.length PoolEvent.worker) := rfl
    have hstep : r.step PoolEvent.worker
        = { r with pool := { r.pool with tasks := rest }, started := r.started ++ [task] } := by
      simp only [PoolRun.step]
      rw [if_neg (by omega), workerStep_cons r.pool task rest hq]
    rw [hrun, hstep]
    obtain ⟨a, b, c⟩ := ih
      { r with pool := { r.pool with tasks := rest }, started := r.started ++ [task] } halive rfl
    exact ⟨by rw [a]; simp, b, c⟩

/-! ## C1, C2: the registry under JOIN, LEAVE and cleanup -/

/-- C1, the code at a failing input. From the empty state, connection 5 sends JOIN(1) and
then JOIN(2). The JOIN branch appends 5 to group 2 and overwrites `clientGroup[5]`, and
removes nothing: 5 is still listed in group 1 although `clientGroup[5]` is 2. A LEAVE
after that removes 5 from group 2 only, so 5 stays listed in group 1 with no
`clientGroup` entry at all. -/
theorem registry_inverse_broken_by_rejoin :
    (5 ∈ mapAt (runOps [.join (envOk 0 0) 5 1, .join (envOk 1 1) 5 2]
        ServerState.empty).groupMembers 1 ∧
      (runOps [.join (envOk 0 0) 5 1, .join (envOk 1 1) 5 2]
        ServerState.empty).clientGroup 5 = some 2) ∧
    (5 ∈ mapAt (runOps [.join (envOk 0 0) 5 1, .join (envOk 1 1) 5 2, .leave (envOk 2 2) 5]
        ServerState.empty).groupMembers 1 ∧
      (runOps [.join (envOk 0 0) 5 1, .join (envOk 1 1) 5 2, .leave (envOk 2 2) 5]
        ServerState.empty).clientGroup 5 = none) := by
  decide

/-- C2, the code at a failing input. Connection 5 is in group 1. After JOIN(2) it is the
only member of group 2 and `clientGroup[5]` is 2, but group 1 still lists it; after
JOIN(1) instead, group 1 lists it twice. -/
theorem join_keeps_prior_membership :
    ((after (envOk 1 1) 5 (joinPkt 2)
        (after (envOk 0 0) 5 (joinPkt 1) ServerState.empty)).groupMembers 2 = some [5] ∧
      (after (envOk 1 1) 5 (joinPkt 2)
        (after (envOk 0 0) 5 (joinPkt 1) ServerState.empty)).clientGroup 5 = some 2 ∧
      (after (envOk 1 1) 5 (joinPkt 2)
        (after (envOk 0 0) 5 (joinPkt 1) ServerState.empty)).groupMembers 1 = some [5]) ∧
    (after (envOk 1 1) 5 (joinPkt 1)
      (after (envOk 0 0) 5 (joinPkt 1) ServerState.empty)).groupMembers 1 = some [5, 5] := by
  decide

/-- The part of the join contract that the code keeps, for every state, transport and
group: after JOIN(g) the connection is listed in `g` and `clientGroup` points at `g`. -/
theorem join_registers (env : Env) (c : Int) (g : Nat) (s : ServerState) :
    c ∈ mapAt (after env c (joinPkt g) s).groupMembers g ∧
    (after env c (joinPkt g) s).clientGroup c = some g := by
  have h := handle_join_state env c (joinPkt g) s rfl
  simp only [after, h]
  simp [joinPkt, mapAt, mapSet]

theorem registered_cleanup (c : Int) (s : ServerState) (h : Registered s) :
    Registered (cleanup_client_nolock c s) := by
  intro d g hd
  have hdc : d ≠ c := by
    rintro rfl
    rw [cleanup_clientGroup_self] at hd
    exact Option.noConfusion hd
  have hcnt := cleanup_other c s d hdc
  rw [hcnt.1] at hd
  have hmem := h d g hd
  rw [← List.count_pos_iff, hcnt.2 g, List.count_pos_iff]
  exact hmem

theorem registered_join (env : Env) (c : Int) (g : Nat) (s : ServerState) (h : Registered s) :
    Registered (after env c (joinPkt g) s) := by
  intro d k hd
  have hst := handle_join_state env c (joinPkt g) s rfl
  simp only [after, hst] at hd ⊢
  simp only [joinPkt, mapSet, mapAt] at hd ⊢
  by_cases hdc : d = c
  · subst hdc
    simp only [if_true, Option.some.injEq] at hd
    subst hd
    simp
  · simp only [if_neg hdc] at hd
    have hmem := h d k hd
    by_cases hk : k = g
    · subst hk
      simp only [if_true, Option.getD_some, List.mem_append]
      exact Or.inl hmem
    · simpa [if_neg hk] using hmem

/-- After every sequence of JOIN, LEAVE and cleanup operations from the empty state, every
connection is listed in the group its `clientGroup` entry names. The converse does not
hold once a connection has sent a second JOIN. -/
theorem registered_runOps (ops : List RegOp) : Registered (runOps ops ServerState.empty) := by
  have key : ∀ (l : List RegOp) (s : ServerState), Registered s → Registered (runOps l s) := by
    intro l
    induction l with
    | nil => intro s hs; exact hs
    | cons op rest ih =>
      intro s hs
      apply ih
      cases op with
      | join env c g => exact registered_join env c g s hs
      | leave env c =>
        have hl := handle_leave env c leavePkt s rfl
        simp only [RegOp.apply, after, hl, Run.exec]
        exact registered_cleanup c s hs
      | cleanup c => exact registered_cleanup c s hs
  exact key ops _ (fun c g hc => by simp [ServerState.empty] at hc)

/-! ## C8: messages of unjoined connections are dropped -/

/-- C8. For every server state and every connection `c` without an entry in `clientGroup`,
handling a MSG packet from `c` returns, calls `send(2)` not once, and leaves the whole
shared state (member vectors, `clientGroup`, caches, `totalMessages`) as it was, whatever
group identifier and payload the packet carries. -/
theorem unjoined_msg_dropped (env : Env) (c : Int) (pkt : ChatPacket) (s : ServerState)
    (hty : pkt.type = PKT_MSG) (hun : s.clientGroup c = none) :
    (handle_packet env c pkt s).returned = true ∧
    (handle_packet env c pkt s).exec.sent = [] ∧
    (handle_packet env c pkt s).exec.st = s := by
  have h1 : ¬ (stamp env pkt).type = PKT_JOIN := by rw [stamp_type, hty]; decide
  have h2 : (stamp env pkt).type = PKT_MSG := by rw [stamp_type, hty]
  simp [handle_packet, if_neg h1, if_pos h2, lockState, Exec.start, Run.bind, unlockState, hun,
    Run.returned, Run.exec]

/-- C8 at a concrete input: connection 4 joined group 9 and left; its next MSG, even with
a failing transport, is dropped. -/
theorem unjoined_msg_dropped_witness :
    ((msgPkt [104, 105]).type = PKT_MSG ∧ sLeft.clientGroup 4 = none) ∧
    (handle_packet (envFirstFails 2 2) 4 (msgPkt [104, 105]) sLeft).returned = true ∧
    (handle_packet (envFirstFails 2 2) 4 (msgPkt [104, 105]) sLeft).exec.sent = [] ∧
    (handle_packet (envFirstFails 2 2) 4 (msgPkt [104, 105]) sLeft).exec.st = sLeft :=
  ⟨⟨rfl, by decide⟩, unjoined_msg_dropped _ 4 _ _ rfl (by decide)⟩

/-! ## C9: cleanup is idempotent -/

/-- C9. For every registry state and connection `c`: a second `cleanup_client_nolock` for
`c` returns the state the first one produced (same member vectors, same `clientGroup`;
the function is total, so there is no error to raise), and for every other connection
its `clientGroup` entry and its number of occurrences in every member vector are what
they were before the first call. -/
theorem cleanup_idempotent (c : Int) (s : ServerState) :
    cleanup_client_nolock c (cleanup_client_nolock c s) = cleanup_client_nolock c s ∧
    ∀ d : Int, d ≠ c →
      (cleanup_client_nolock c s).clientGroup d = s.clientGroup d ∧
      ∀ g : Nat, (mapAt (cleanup_client_nolock c s).groupMembers g).count d
        = (mapAt s.groupMembers g).count d :=
  ⟨cleanup_of_unjoined c _ (cleanup_clientGroup_self c s), cleanup_other c s⟩

/-! ## C3: fan-out excludes the sender -/

/-- C3. For every state in which connection `c` is joined to group `G`, handling a MSG
from `c` with every send succeeding returns, and its calls of `send(2)` are exactly: the
stamped packet to each entry of `G`'s member vector other than `c`, in vector order. So
every listed member other than `c` is sent the packet, nothing is sent to a connection
that is not listed in `G`, and nothing is sent to `c`. -/
theorem msg_fanout_excludes_sender (env : Env) (c : Int) (pkt : ChatPacket) (s : ServerState)
    (G : Nat) (hty : pkt.type = PKT_MSG) (hj : s.clientGroup c = some G)
    (hok : ∀ k, 0 < env.sendRet k) :
    (handle_packet env c pkt s).returned = true ∧
    (handle_packet env c pkt s).exec.sent
      = ((mapAt s.groupMembers G).filter (fun fd => fd != c)).map (fun fd => (fd, stamp env pkt)) ∧
    (∀ fd, fd ∈ mapAt s.groupMembers G → fd ≠ c →
      (fd, stamp env pkt) ∈ (handle_packet env c pkt s).exec.sent) ∧
    (∀ fd p, (fd, p) ∈ (handle_packet env c pkt s).exec.sent →
      fd ∈ mapAt s.groupMembers G ∧ fd ≠ c ∧ p = stamp env pkt) := by
  rw [handle_msg_ok env c pkt s G hty hj hok]
  refine ⟨rfl, rfl, ?_, ?_⟩
  · intro fd hfd hne
    simp only [Run.exec, List.mem_map, List.mem_filter]
    exact ⟨fd, ⟨hfd, by simpa using hne⟩, rfl⟩
  · intro fd p hmem
    simp only [Run.exec, List.mem_map, List.mem_filter] at hmem
    obtain ⟨a, ⟨ha, hne⟩, heq⟩ := hmem
    cases heq
    exact ⟨ha, by simpa using hne, rfl⟩

/-- C3 at a concrete input: with 9, 10, 11 in group 1 and 20 in group 2, a MSG from 10 is
sent to 9 and 11 and to nobody else. -/
theorem msg_fanout_excludes_sender_witness :
    ((msgPkt [104]).type = PKT_MSG ∧ sRoom.clientGroup 10 = some 1 ∧
      ∀ k, 0 < (envOk 7 7).sendRet k) ∧
    (handle_packet (envOk 7 7) 10 (msgPkt [104]) sRoom).exec.sent
      = [(9, stamp (envOk 7 7) (msgPkt [104])), (11, stamp (envOk 7 7) (msgPkt [104]))] :=
  ⟨⟨rfl, by decide, envOk_sends 7 7⟩,
    (msg_fanout_excludes_sender (envOk 7 7) 10 (msgPkt [104]) sRoom 1 rfl (by decide)
      (envOk_sends 7 7)).2.1.trans (by decide)⟩

/-! ## C4: a failed send during fan-out -/

/-- C4, the code at a failing input. Group 1 lists 9, 10, 11; connection 9 sends a MSG and
the send to 10 fails. `send_packet_fd` calls `cleanup_client`, which constructs a
`lock_guard` on `stateMutex` while `broadcast_to_group` still owns it: the task blocks
there. One `send(2)` was made (to 10), none to 11, `close(2)` was not called, and 10 is
still listed in group 1 and in `clientGroup`. -/
theorem broadcast_blocks_on_failed_send :
    (broadcast_to_group (envFirstFails 7 7) 1 (msgPkt [104]) 9 (Exec.start sRoom)).returned = false ∧
    (broadcast_to_group (envFirstFails 7 7) 1 (msgPkt [104]) 9 (Exec.start sRoom)).exec.sent
      = [(10, msgPkt [104])] ∧
    (broadcast_to_group (envFirstFails 7 7) 1 (msgPkt [104]) 9 (Exec.start sRoom)).exec.closed = [] ∧
    (broadcast_to_group (envFirstFails 7 7) 1 (msgPkt [104]) 9 (Exec.start sRoom)).exec.st.groupMembers 1
      = some [9, 10, 11] ∧
    (broadcast_to_group (envFirstFails 7 7) 1 (msgPkt [104]) 9 (Exec.start sRoom)).exec.st.clientGroup 10
      = some 1 ∧
    (handle_packet (envFirstFails 7 7) 9 (msgPkt [104]) sRoom).returned = false := by
  decide

/-! ## C6: the cache keeps the last fifty packets -/

/-- C6. For every group `g` whose cache starts empty and every sequence of
`cache_message` calls (on any groups, at any times, with no read in between), the cache
of `g` afterwards is the list of the packets recorded for `g`, in call order, without
its first `n - 50` elements when `n > 50`: the last `min n 50` of them. So a following
`send_cached_messages`, whatever the transport and the clock, leaves at most fifty entries
in the cache and sends at most fifty packets. -/
theorem cache_keeps_last_fifty (calls : List RecordCall) (g : Nat) (s : ServerState)
    (hempty : mapAt s.groupCaches g = []) :
    mapAt (recordAll calls s).groupCaches g
      = (entriesOf g calls).drop ((entriesOf g calls).length - MAX_CACHE_PER_GROUP) ∧
    (mapAt (recordAll calls s).groupCaches g).length
      = min (entriesOf g calls).length MAX_CACHE_PER_GROUP ∧
    ∀ (env : Env) (fd : Int),
      (mapAt (send_cached_messages env fd g (Exec.start (recordAll calls s))).exec.st.groupCaches
        g).length ≤ MAX_CACHE_PER_GROUP ∧
      (send_cached_messages env fd g (Exec.start (recordAll calls s))).exec.sent.length
        ≤ MAX_CACHE_PER_GROUP := by
  obtain ⟨hsuf, hlen⟩ := recordAll_cache calls g s (by rw [hempty]; exact Nat.zero_le _)
  rw [hempty] at hsuf hlen
  simp only [List.nil_append, List.length_nil, Nat.zero_add] at hsuf hlen
  have hle : (mapAt (recordAll calls s).groupCaches g).length ≤ MAX_CACHE_PER_GROUP := by
    rw [hlen]; exact Nat.min_le_right _ _
  refine ⟨?_, hlen, ?_⟩
  · have h := suffix_eq_drop _ _ hsuf
    rw [hlen] at h
    rw [h]
    congr 1
    omega
  · intro env fd
    obtain ⟨n, hn, hst, hsent⟩ :=
      send_cached_messages_free env fd g (Exec.start (recordAll calls s)) rfl
    have hev := evictExpired_length_le env.now (mapAt (recordAll calls s).groupCaches g)
    have hst2 : mapAt (send_cached_messages env fd g
        (Exec.start (recordAll calls s))).exec.st.groupCaches g
        = evictExpired env.now (mapAt (recordAll calls s).groupCaches g) := by
      rw [hst]
      simp [mapAt, mapSet, Exec.start]
    refine ⟨?_, ?_⟩
    · rw [hst2]
      exact le_trans hev hle
    · rw [hsent]
      simp only [Exec.start, List.nil_append, List.length_map, List.length_take] at hn ⊢
      omega

/-- C6 at a concrete input: fifty-two packets 0..51 recorded for group 3, whose cache was
empty; the cache then holds packets 2..51 in that order. -/
theorem cache_keeps_last_fifty_witness :
    mapAt ServerState.empty.groupCaches 3 = [] ∧
    (mapAt (recordAll burst ServerState.empty).groupCaches 3).map (fun e => e.packet.payload)
      = (List.range' 2 50).map (fun k => [k]) :=
  ⟨rfl, by rw [(cache_keeps_last_fifty burst 3 ServerState.empty rfl).1]; decide⟩

/-! ## C7: time to live -/

/-- C7, the code at a failing input. Packets `[97]` and `[98]` are recorded for group 7 at
time 100, and `send_cached_messages` runs at time 100 with its first `send(2)` failing.
`send_cached_messages` owns `stateMutex`; the failed send makes `send_packet_fd` call
`cleanup_client`, which constructs a second `lock_guard` on it: the task blocks after one
send, and packet `[98]`, recorded at the time of the read, is not among the packets sent,
although it is in the deque and not expired. -/
theorem cache_read_blocks_on_failed_send :
    (send_cached_messages (envFirstFails 100 100) 30 7
        (Exec.start (recordAll twoAtOnce ServerState.empty))).returned = false ∧
    (send_cached_messages (envFirstFails 100 100) 30 7
        (Exec.start (recordAll twoAtOnce ServerState.empty))).exec.sent = [(30, msgPkt [97])] ∧
    (30, msgPkt [98]) ∉ (send_cached_messages (envFirstFails 100 100) 30 7
        (Exec.start (recordAll twoAtOnce ServerState.empty))).exec.sent ∧
    (mapAt (send_cached_messages (envFirstFails 100 100) 30 7
        (Exec.start (recordAll twoAtOnce ServerState.empty))).exec.st.groupCaches 7).map
        (fun e => (e.packet, e.expiry)) = [(msgPkt [97], 160), (msgPkt [98], 160)] := by
  decide

/-- What the code keeps of the time-to-live contract. On a transport whose sends all
succeed, a packet recorded by `cache_message` at time `t` is among the packets sent by a
`send_cached_messages` on its group that runs at a time not after `t + CACHE_TTL`, when
fewer than fifty records for the group came after it. And whatever the transport does,
along every history of `cache_message` and `send_cached_messages` calls that starts with
empty caches and has a non-decreasing clock, a `send_cached_messages` at time `now` leaves
no entry with expiry before `now` in the deque, sends only to its `fd`, and every packet
it sends was recorded for the group at some time `t` with `now ≤ t + CACHE_TTL`; so a
packet whose recordings all satisfy `t + CACHE_TTL < now` is not sent. -/
theorem ttl_on_working_transport :
    (∀ (s : ServerState) (r : RecordCall) (later : List RecordCall) (env : Env) (fd : Int),
      (entriesOf r.groupID later).length < MAX_CACHE_PER_GROUP →
      env.now ≤ r.env.now + CACHE_TTL →
      (∀ k, 0 < env.sendRet k) →
      (fd, r.pkt) ∈
        (send_cached_messages env fd r.groupID (Exec.start (recordAll (r :: later) s))).exec.sent) ∧
    (∀ (ops : List CacheOp) (s0 : ServerState) (env : Env) (fd : Int) (g : Nat),
      (∀ k, mapAt s0.groupCaches k = []) →
      (ops.map CacheOp.time).Pairwise (fun a b => a ≤ b) →
      (∀ e ∈ mapAt (send_cached_messages env fd g
          (Exec.start (runCache ops s0))).exec.st.groupCaches g, env.now ≤ e.expiry) ∧
      (∀ q p, (q, p) ∈ (send_cached_messages env fd g (Exec.start (runCache ops s0))).exec.sent →
        q = fd ∧ ∃ envR, CacheOp.record envR g p ∈ ops ∧ env.now ≤ envR.now + CACHE_TTL) ∧
      (∀ p, (∀ envR, CacheOp.record envR g p ∈ ops → envR.now + CACHE_TTL < env.now) →
        ∀ q, (q, p) ∉ (send_cached_messages env fd g (Exec.start (runCache ops s0))).exec.sent)) := by
  refine ⟨?_, ?_⟩
  · intro s r later env fd hlater hfresh hok
    rw [(send_cached_messages_ok env fd r.groupID _ hok).2]
    have hmem := recordAll_keeps_recent r later s hlater
    have hkept := mem_evictExpired env.now _ r.entry hmem hfresh
    exact List.mem_map.mpr ⟨r.entry, hkept, rfl⟩
  · intro ops s0 env fd g hs0 hmono
    obtain ⟨hsorted, hsrc⟩ := cacheInv_runCache ops s0 hs0 hmono g
    have hfresh := evictExpired_fresh env.now _ hsorted
    have hsuf := evictExpired_suffix env.now (mapAt (runCache ops s0).groupCaches g)
    obtain ⟨n, -, -, hsent⟩ :=
      send_cached_messages_free env fd g (Exec.start (runCache ops s0)) rfl
    have hsentOnly : ∀ q p,
        (q, p) ∈ (send_cached_messages env fd g (Exec.start (runCache ops s0))).exec.sent →
        q = fd ∧ ∃ envR, CacheOp.record envR g p ∈ ops ∧ env.now ≤ envR.now + CACHE_TTL := by
      intro q p hqp
      rw [hsent] at hqp
      simp only [Exec.start, List.nil_append, List.mem_map] at hqp
      obtain ⟨e, he, heq⟩ := hqp
      have he2 := List.mem_of_mem_take he
      obtain ⟨envR, hmem, hexp⟩ := hsrc e (hsuf.subset he2)
      have hf := hfresh e he2
      cases heq
      exact ⟨rfl, envR, hmem, by omega⟩
    refine ⟨?_, hsentOnly, ?_⟩
    · rw [read_cache, if_pos rfl]
      exact hfresh
    · intro p hold q hqp
      obtain ⟨-, envR, hmem, hle⟩ := hsentOnly q p hqp
      have := hold envR hmem
      omega

/-- The time-to-live contract on a working transport, at concrete inputs. A packet recorded
at time 100 is sent by a read at time 100. In `ttlHistory` (clock 100, 100, 130) packet
`[97]` was recorded at time 100 only, and a read at time 161 does not send it, while it
does send packet `[98]` recorded at 130. -/
theorem ttl_on_working_transport_example :
    (30, msgPkt [97]) ∈ (send_cached_messages (envOk 100 100) 30 7 (Exec.start (recordAll
        [{ env := envOk 100 100, groupID := 7, pkt := msgPkt [97] }] ServerState.empty))).exec.sent ∧
    (ttlHistory.map CacheOp.time).Pairwise (fun a b => a ≤ b) ∧
    (31, msgPkt [97]) ∉ (send_cached_messages (envOk 161 161) 31 7
        (Exec.start (runCache ttlHistory ServerState.empty))).exec.sent ∧
    (send_cached_messages (envOk 161 161) 31 7
        (Exec.start (runCache ttlHistory ServerState.empty))).exec.sent = [(31, msgPkt [98])] :=
  ⟨ttl_on_working_transport.1 ServerState.empty { env := envOk 100 100, groupID := 7, pkt := msgPkt [97] } []
      (envOk 100 100) 30 (by decide) (by decide) (envOk_sends 100 100),
    by decide,
    (ttl_on_working_transport.2 ttlHistory ServerState.empty (envOk 161 161) 31 7 (fun _ => rfl) (by decide)).2.2
      (msgPkt [97])
      (fun envR h => by
        simp only [ttlHistory, List.mem_cons, CacheOp.record.injEq, List.not_mem_nil,
          reduceCtorEq] at h
        rcases h with h | h | h | h
        · rw [h.1]; decide
        · exact h.elim
        · exact absurd h.2.2 (by decide)
        · exact h.elim)
      31,
    by decide⟩

/-! ## C5: backlog for a late joiner -/

/-- C5, the code at two failing inputs. In both, connection 10 of group 7 has sent "a",
"b", "c" and connection 11 then sends JOIN(7).
First input: 10 is alone in group 7 and the first backlog `send(2)` fails. The JOIN task
owns `stateMutex` in `send_cached_messages` and blocks in `cleanup_client`: one packet is
sent instead of three.
Second input: 11 is already listed in group 7 and every send succeeds. The JOIN branch
appends 11 again, so the later "d" from connection 10 is sent to 11 twice. -/
theorem backfill_broken_by_failed_send_or_relisting :
    ((handle_packet (envFirstFails 4 1004) 11 (joinPkt 7) (handleAll abc sSeven)).returned = false ∧
      (handle_packet (envFirstFails 4 1004) 11 (joinPkt 7) (handleAll abc sSeven)).exec.sent
        = [(11, { type := PKT_MSG, groupID := 0, timestamp := 1001, payload := [97] })]) ∧
    ((after (envOk 4 1004) 11 (joinPkt 7) (handleAll abc sPair)).groupMembers 7
        = some [10, 11, 11] ∧
      (handle_packet (envOk 5 1005) 10 (msgPkt [100])
          (after (envOk 4 1004) 11 (joinPkt 7) (handleAll abc sPair))).exec.sent
        = [(11, { type := PKT_MSG, groupID := 0, timestamp := 1005, payload := [100] }),
           (11, { type := PKT_MSG, groupID := 0, timestamp := 1005, payload := [100] })]) := by
  decide

/-- What the code keeps of the backlog contract: working sends and a joiner that the
group does not list yet. Let the cache of group `G` be empty in `s0`, and let `msgs` be at
most fifty MSG tasks of connections joined to `G`, run in order with working sends. Let
connection `Y`, not yet listed in `G`, then send a JOIN for `G` at a time when none of the
recorded entries has expired. The JOIN task returns and its sends are exactly the stamped
packets of `msgs`, each once, in the order they were handled, all to `Y`. When a member
`X ≠ Y` of `G` later sends a MSG `d`, exactly one send of that task goes to `Y`, and it
carries the stamped `d`: nothing is sent again from the cache. -/
theorem backfill_on_working_transport (s0 : ServerState) (msgs : List Task) (j d : ChatPacket)
    (X Y : Int) (envJ envD : Env)
    (hj : j.type = PKT_JOIN)
    (hempty : mapAt s0.groupCaches j.groupID = [])
    (hN : msgs.length ≤ MAX_CACHE_PER_GROUP)
    (hmsgs : ∀ k ∈ msgs,
      k.pkt.type = PKT_MSG ∧ s0.clientGroup k.fd = some j.groupID ∧ ∀ i, 0 < k.env.sendRet i)
    (hfresh : ∀ k ∈ msgs, envJ.now ≤ k.env.now + CACHE_TTL)
    (hokJ : ∀ i, 0 < envJ.sendRet i)
    (hY : Y ∉ mapAt s0.groupMembers j.groupID)
    (hX : s0.clientGroup X = some j.groupID) (hXY : X ≠ Y)
    (hd : d.type = PKT_MSG) (hokD : ∀ i, 0 < envD.sendRet i) :
    (handle_packet envJ Y j (handleAll msgs s0)).returned = true ∧
    (handle_packet envJ Y j (handleAll msgs s0)).exec.sent
      = msgs.map (fun k => (Y, stamp k.env k.pkt)) ∧
    (handle_packet envD X d (after envJ Y j (handleAll msgs s0))).returned = true ∧
    (handle_packet envD X d (after envJ Y j (handleAll msgs s0))).exec.sent.filter
        (fun q => decide (q.1 = Y))
      = [(Y, stamp envD d)] := by
  obtain ⟨hmem, hcg, -⟩ := handleAll_msgs j.groupID msgs s0 s0 rfl hmsgs
  have hcache := handleAll_msgs_cache j.groupID msgs s0 hempty hN hmsgs
  have hjoin := handle_join_ok envJ Y j (handleAll msgs s0) hj hokJ
  have hkeep : evictExpired envJ.now (mapAt (handleAll msgs s0).groupCaches j.groupID)
      = mapAt (handleAll msgs s0).groupCaches j.groupID := by
    apply evictExpired_of_fresh
    intro e he
    rw [hcache] at he
    obtain ⟨k, hk, rfl⟩ := List.mem_map.mp he
    have := hfresh k hk
    simp only
    omega
  have hXjoined : (after envJ Y j (handleAll msgs s0)).clientGroup X = some j.groupID := by
    simp only [after, hjoin, Run.exec, mapSet, if_neg hXY, hcg, hX]
  have hmembers : mapAt (after envJ Y j (handleAll msgs s0)).groupMembers j.groupID
      = mapAt s0.groupMembers j.groupID ++ [Y] := by
    simp only [after, hjoin, Run.exec, hmem]
    simp [mapAt, mapSet]
  have hmsg := handle_msg_ok envD X d (after envJ Y j (handleAll msgs s0)) j.groupID hd
    hXjoined hokD
  refine ⟨?_, ?_, ?_, ?_⟩
  · rw [hjoin]; rfl
  · rw [hjoin]
    simp only [Run.exec]
    rw [hkeep, hcache, List.map_map]
    rfl
  · rw [hmsg]; rfl
  · rw [hmsg]
    simp only [Run.exec, hmembers]
    exact fanout_to_newcomer _ X Y _ hY hXY

/-- The scenario of the specification, on a working transport: group 7 gets "a", "b", "c"
from connection 10, its only member; connection 11 joins group 7 and is sent "a", "b",
"c" in that order; "d" from connection 10 is then sent to connection 11 and to nobody
else, once. -/
theorem backfill_on_working_transport_example :
    (handle_packet (envOk 4 1004) 11 (joinPkt 7) (handleAll abc sSeven)).exec.sent
      = [(11, { type := PKT_MSG, groupID := 0, timestamp := 1001, payload := [97] }),
         (11, { type := PKT_MSG, groupID := 0, timestamp := 1002, payload := [98] }),
         (11, { type := PKT_MSG, groupID := 0, timestamp := 1003, payload := [99] })] ∧
    (handle_packet (envOk 5 1005) 10 (msgPkt [100])
        (after (envOk 4 1004) 11 (joinPkt 7) (handleAll abc sSeven))).exec.sent.filter
        (fun q => decide (q.1 = 11))
      = [(11, stamp (envOk 5 1005) (msgPkt [100]))] ∧
    (handle_packet (envOk 5 1005) 10 (msgPkt [100])
        (after (envOk 4 1004) 11 (joinPkt 7) (handleAll abc sSeven))).exec.sent
      = [(11, { type := PKT_MSG, groupID := 0, timestamp := 1005, payload := [100] })] :=
  have h := backfill_on_working_transport sSeven abc (joinPkt 7) (msgPkt [100]) 10 11 (envOk 4 1004)
    (envOk 5 1005) rfl (by decide) (by decide)
    (fun k hk => by
      simp only [abc, List.mem_cons, List.not_mem_nil, or_false] at hk
      rcases hk with rfl | rfl | rfl
      · exact ⟨rfl, by decide, envOk_sends _ _⟩
      · exact ⟨rfl, by decide, envOk_sends _ _⟩
      · exact ⟨rfl, by decide, envOk_sends _ _⟩)
    (fun k hk => by
      simp only [abc, List.mem_cons, List.not_mem_nil, or_false] at hk
      rcases hk with rfl | rfl | rfl <;> decide)
    (envOk_sends _ _) (by decide) (by decide) (by decide) rfl (envOk_sends _ _)
  ⟨h.2.1.trans (by decide), h.2.2.2, by decide⟩

/-! ## C10: the worker pool on shutdown -/

/-- C10, the claim as stated fails. The destructor has set `stop`; `enqueue` still pushes
task 7 on the queue, because it does not read `stop`. When the only worker has already
returned, that task stays in the queue and is never taken. -/
theorem enqueue_after_stop_accepted :
    (((PoolRun.create Nat 1).run [.destroy, .enqueue 7]).pool.stop = true ∧
      ((PoolRun.create Nat 1).run [.destroy, .enqueue 7]).pool.tasks = [7]) ∧
    (((PoolRun.create Nat 1).run [.destroy, .worker, .enqueue 7, .worker]).alive = 0 ∧
      ((PoolRun.create Nat 1).run [.destroy, .worker, .enqueue 7, .worker]).pool.tasks = [7] ∧
      ((PoolRun.create Nat 1).run [.destroy, .worker, .enqueue 7, .worker]).started = []) := by
  decide

/-- C10 as amended. In the step model of `ThreadPool` (FIFO queue and `stop` flag):
a worker returns exactly when `stop` is set and the queue is empty; a pass on a non-empty
queue takes the oldest task; `enqueue` appends at the back whatever `stop` is; along every
run the taken tasks followed by the queued ones are the enqueued ones in call order; when
every `enqueue` precedes the destructor, a worker has returned only after the queue was
emptied and every enqueued task taken; and with `stop` set and a live worker, as many
worker passes as there are queued tasks take them all in order. -/
theorem pool_drains_before_exit {τ : Type} :
    (∀ pool : ThreadPool τ,
      pool.workerStep.1 = WorkerStep.exited ↔ (pool.stop = true ∧ pool.tasks = [])) ∧
    (∀ (pool : ThreadPool τ) (task : τ) (rest : List τ), pool.tasks = task :: rest →
      pool.workerStep = (.took task, { pool with tasks := rest })) ∧
    (∀ (pool : ThreadPool τ) (task : τ),
      (pool.enqueue task).tasks = pool.tasks ++ [task] ∧ (pool.enqueue task).stop = pool.stop) ∧
    (∀ (threadCount : Nat) (events : List (PoolEvent τ)),
      ((PoolRun.create τ threadCount).run events).started
        ++ ((PoolRun.create τ threadCount).run events).pool.tasks = enqueued events) ∧
    (∀ (threadCount : Nat) (pre post : List (PoolEvent τ)),
      (∀ ev ∈ pre, ev ≠ PoolEvent.destroy) → (∀ ev ∈ post, ev = PoolEvent.worker) →
      ((PoolRun.create τ threadCount).run (pre ++ .destroy :: post)).alive
        < (PoolRun.create τ threadCount).alive →
      ((PoolRun.create τ threadCount).run (pre ++ .destroy :: post)).pool.tasks = [] ∧
      ((PoolRun.create τ threadCount).run (pre ++ .destroy :: post)).started = enqueued pre) ∧
    (∀ r : PoolRun τ, r.pool.stop = true → 0 < r.alive →
      (r.run (List.replicate r.pool.tasks.length PoolEvent.worker)).started
        = r.started ++ r.pool.tasks ∧
      (r.run (List.replicate r.pool.tasks.length PoolEvent.worker)).pool.tasks = [] ∧
      (r.run (List.replicate r.pool.tasks.length PoolEvent.worker)).alive = r.alive) := by
  refine ⟨?_, workerStep_cons, fun pool task => ⟨rfl, rfl⟩, ?_, ?_, fun r _ h => run_drains r h⟩
  · intro pool
    cases ht : pool.tasks with
    | nil =>
      rw [workerStep_nil pool ht]
      cases pool.stop <;> simp
    | cons task rest =>
      rw [workerStep_cons pool task rest ht]
      simp
  · intro threadCount events
    have h := run_conserves events (PoolRun.create τ threadCount)
    simpa [PoolRun.create] using h
  · intro threadCount pre post hpre hpost hlt
    have hsplit : (PoolRun.create τ threadCount).run (pre ++ .destroy :: post)
        = ((((PoolRun.create τ threadCount).run pre).step .destroy).run post) := by
      simp [PoolRun.run, List.foldl_append]
    obtain ⟨ha, -⟩ := run_alive_before_stop pre (PoolRun.create τ threadCount) hpre rfl
    have hempty := run_workers_after_stop (PoolRun.create τ threadCount).alive post
      (((PoolRun.create τ threadCount).run pre).step .destroy) hpost rfl
      (fun h => absurd h (by simp only [PoolRun.step]; omega))
      (by simp only [PoolRun.step]; omega)
    rw [hsplit] at hlt ⊢
    have htasks := hempty hlt
    refine ⟨htasks, ?_⟩
    have hcons := run_conserves (pre ++ .destroy :: post) (PoolRun.create τ threadCount)
    rw [hsplit, htasks] at hcons
    have henq : enqueued (pre ++ PoolEvent.destroy :: post) = enqueued pre := by
      rw [enqueued_append]
      have hp : ∀ (l : List (PoolEvent τ)), (∀ ev ∈ l, ev = PoolEvent.worker) → enqueued l = [] := by
        intro l
        induction l with
        | nil => intro _; rfl
        | cons e rest ih =>
          intro hl
          have he := hl e (List.mem_cons_self _ _)
          subst he
          exact ih (fun x hx => hl x (List.mem_cons_of_mem _ hx))
      simp [enqueued, hp post hpost]
    rw [henq] at hcons
    simpa [PoolRun.create] using hcons

/-- C10 as amended, at a concrete input: two workers, tasks 1 and 2 enqueued, one taken,
task 3 enqueued, then the destructor and four worker passes. Both workers have returned,
the queue is empty and tasks 1, 2, 3 were taken in that order. -/
theorem pool_drains_before_exit_witness :
    ((PoolRun.create Nat 2).run
        ([.enqueue 1, .enqueue 2, .worker, .enqueue 3] ++
          .destroy :: [.worker, .worker, .worker, .worker])).alive = 0 ∧
    ((PoolRun.create Nat 2).run
        ([.enqueue 1, .enqueue 2, .worker, .enqueue 3] ++
          .destroy :: [.worker, .worker, .worker, .worker])).pool.tasks = [] ∧
    ((PoolRun.create Nat 2).run
        ([.enqueue 1, .enqueue 2, .worker, .enqueue 3] ++
          .destroy :: [.worker, .worker, .worker, .worker])).started = [1, 2, 3] :=
  have h := pool_drains_before_exit.2.2.2.2.1 2
    [PoolEvent.enqueue 1, .enqueue 2, .worker, .enqueue 3] [.worker, .worker, .worker, .worker]
    (by
      intro ev hev
      simp only [List.mem_cons, List.not_mem_nil, or_false] at hev
      rcases hev with rfl | rfl | rfl | rfl <;> exact fun h => PoolEvent.noConfusion h)
    (by
      intro ev hev
      simp only [List.mem_cons, List.not_mem_nil, or_false] at hev
      rcases hev with rfl | rfl | rfl | rfl <;> rfl)
    (by decide)
  ⟨by decide, h.1, h.2.trans (by decide)⟩

end GroupChat
